import Mathlib

/-!
Verification of the CANUSB serial backend (`canusb_backend.py`).

The development shallowly embeds the three algorithmic parts of the
backend:

* the frame decoder `_process_buffer` (embedded as a one-iteration
  `step` function plus a fuel-indexed driver `processBufferAux`;
  `processBuffer` runs the driver with fuel equal to the buffer length,
  which is shown to be enough fuel),
* the initialization-command encoder `_init_adapter` /
  `_generate_checksum`,
* the session lifecycle `connect` / `disconnect` (external effects —
  opening the serial port, writing to it, thread start/join — are
  modelled by explicit outcome parameters and an `Except` result).

Bytes are modelled as `Nat` (a Python `bytearray` element is always in
`[0, 256)`; hypotheses record that bound where a statement needs it).
Wall-clock timestamps (`time.time()`) are environmental and omitted from
the embedded frame value.
-/

/-- Embeds the `CANFrame` dataclass (without the wall-clock `timestamp`
field, which is environmental). -/
structure CANFrame where
  id : Nat
  dlc : Nat
  data : List Nat
  is_extended : Bool
deriving DecidableEq, Repr

/-- Embeds lines 119-127 of `_process_buffer`: build a `CANFrame` from the
`frame_len` bytes `frame_data` sliced off the head of the buffer. -/
def decodeFrame (frame_data : List Nat) : CANFrame :=
  { id := frame_data.getD 2 0 ||| (frame_data.getD 3 0 <<< 8)
    dlc := frame_data.getD 1 0 &&& 0x0F
    data := (frame_data.drop 4).take (frame_data.getD 1 0 &&& 0x0F)
    is_extended := frame_data.getD 1 0 &&& 0x20 != 0 }

/-- Result of one iteration of the `while` loop in `_process_buffer`:
either the loop exits (`stop`: empty buffer or a `break` waiting for more
data), or it consumes `k` bytes from the head of the buffer, emitting at
most one frame, and continues. -/
inductive StepResult where
  | stop : StepResult
  | cont : Option CANFrame → Nat → StepResult
deriving DecidableEq, Repr

/-- One iteration of the `while` loop of `_process_buffer`
(lines 97-136): resynchronization discard of a non-`0xAA` head byte,
20-byte command/response frames introduced by `0xAA 0x55`, data frames
introduced by `0xAA` and a type byte with high nibble `0xC`, and a
one-byte discard for any other second byte. -/
def step : List Nat → StepResult
  | [] => .stop
  | b0 :: rest =>
    if b0 ≠ 0xAA then
      .cont none 1
    else
      match rest with
      | [] => .stop
      | b1 :: _ =>
        if b1 = 0x55 then
          if 20 ≤ rest.length + 1 then .cont none 20 else .stop
        else if b1 >>> 4 = 0x0C then
          let frame_len := (b1 &&& 0x0F) + 5
          if frame_len ≤ rest.length + 1 then
            let frame_data := (b0 :: rest).take frame_len
            if frame_data.getLast? = some 0x55 then
              .cont (some (decodeFrame frame_data)) frame_len
            else
              .cont none frame_len
          else .stop
        else
          .cont none 1

/-- Prepend an optionally emitted frame to a frame list. -/
def consOpt : Option CANFrame → List CANFrame → List CANFrame
  | none, fs => fs
  | some f, fs => f :: fs

/-- Fuel-indexed driver for the `while` loop of `_process_buffer`:
iterate `step`, collecting emitted frames in order and returning the
final buffer. Each continuing iteration consumes at least one byte, so
fuel equal to the buffer length is always sufficient (proved below). -/
def processBufferAux : Nat → List Nat → List CANFrame × List Nat
  | 0, buf => ([], buf)
  | fuel + 1, buf =>
    match step buf with
    | .stop => ([], buf)
    | .cont of k =>
      let next := processBufferAux fuel (buf.drop k)
      (consOpt of next.1, next.2)

/-- One call of `_process_buffer` on the given buffer: the frames emitted
(in callback order) and the buffer left for the next call. -/
def processBuffer (buf : List Nat) : List CANFrame × List Nat :=
  processBufferAux buf.length buf

/-- Number of iterations the `while` loop of `_process_buffer` executes
on the given buffer (fuel-indexed like `processBufferAux`). -/
def passIters : Nat → List Nat → Nat
  | 0, _ => 0
  | _ + 1, [] => 0
  | fuel + 1, b0 :: rest =>
    match step (b0 :: rest) with
    | .stop => 1
    | .cont _ k => 1 + passIters fuel ((b0 :: rest).drop k)

/-- Embeds `_read_loop_iteration` (lines 85-90) restricted to its buffer
effect: append the bytes read from the port to the accumulation buffer,
then run `_process_buffer`. -/
def read_loop_iteration (incoming buffer : List Nat) :
    List CANFrame × List Nat :=
  processBuffer (buffer ++ incoming)

/-- Embeds `_generate_checksum` (lines 57-59): `sum(data) & 0xFF`. -/
def generate_checksum (data : List Nat) : Nat :=
  data.sum &&& 0xFF

/-- Embeds the `speed_map` dict of `_init_adapter` (lines 64-68). -/
def speed_map : List (Nat × Nat) :=
  [(1000000, 0x01), (800000, 0x02), (500000, 0x03), (400000, 0x04),
   (250000, 0x05), (200000, 0x06), (125000, 0x07), (100000, 0x08),
   (50000, 0x09), (20000, 0x0a), (10000, 0x0b), (5000, 0x0c)]

/-- Embeds `speed_map.get(self.can_speed, 0x03)` (line 69): look the
requested speed up in the map, defaulting to the code for 500 kbit/s. -/
def speedCode (can_speed : Nat) : Nat :=
  (speed_map.lookup can_speed).getD 0x03

/-- Embeds the command construction of `_init_adapter` (lines 72-74): the
19 fixed bytes with the speed code at index 3, then the appended
checksum over everything after the two start bytes. -/
def initCommand (can_speed : Nat) : List Nat :=
  let cmd := [0xAA, 0x55, 0x12, speedCode can_speed, 0x01,
              0, 0, 0, 0, 0, 0, 0, 0, 0, 0x01, 0, 0, 0, 0]
  cmd ++ [generate_checksum (cmd.drop 2)]

/-- The mutable session fields of `CANUSBBackend` touched by
`connect` / `disconnect` (`__init__`, lines 26-30). The immutable
configuration fields (`port`, `baudrate`, `can_speed`) and the callback
list are omitted. `read_thread` records, when a thread object exists,
whether it was started (joining an unstarted thread raises). -/
structure SessionState where
  ser : Option Unit
  running : Bool
  read_thread : Option Bool
  buffer : List Nat
deriving DecidableEq, Repr

/-- The state `__init__` leaves behind: no serial handle, not running, no
thread, empty buffer. -/
def initState : SessionState :=
  { ser := none, running := false, read_thread := none, buffer := [] }

/-- Outcome of the externally visible effects inside `connect`'s `try`
block: the `serial.Serial` constructor may raise (`openFail`), the
`_init_adapter` write may raise after the port was opened (`writeFail`),
or everything succeeds (`ok`). -/
inductive ConnectOutcome where
  | openFail : ConnectOutcome
  | writeFail : ConnectOutcome
  | ok : ConnectOutcome
deriving DecidableEq, Repr

/-- Embeds `connect` (lines 36-47): on success assign the serial handle,
send the init command, set `running`, create and start the read thread,
return `True`; any exception in the `try` block yields `False`, keeping
whatever assignments happened before the raise. -/
def connect (outcome : ConnectOutcome) (s : SessionState) :
    Bool × SessionState :=
  match outcome with
  | .openFail => (false, s)
  | .writeFail => (false, { s with ser := some () })
  | .ok =>
    (true, { s with ser := some (), running := true,
                    read_thread := some true })

/-- Models `threading.Thread.join`: raises `RuntimeError` when the thread
was never started, otherwise returns. -/
def joinThread (started : Bool) : Except String Unit :=
  if started then .ok () else .error "cannot join thread before it is started"

/-- Models `serial.Serial.close`: closing a port that was opened does
not raise. -/
def closeSerial : Unit → Except String Unit :=
  fun _ => .ok ()

/-- Embeds `disconnect` (lines 49-55): clear `running`, join the read
thread if one exists, close the serial port if one was assigned. The
`Except` result records whether any of those calls raised. -/
def disconnect (s : SessionState) : Except String SessionState :=
  let s' := { s with running := false }
  match (match s'.read_thread with
         | some started => joinThread started
         | none => Except.ok ()) with
  | .error e => .error e
  | .ok _ =>
    match (match s'.ser with
           | some h => closeSerial h
           | none => Except.ok ()) with
    | .error e => .error e
    | .ok _ => .ok s'

/-- Session states reachable without any successful `connect`: the fresh
`__init__` state, followed by any number of failed `connect` attempts. -/
inductive ReachableNoConnect : SessionState → Prop
  | init : ReachableNoConnect initState
  | connectFail (outcome : ConnectOutcome) (s : SessionState) :
      outcome ≠ ConnectOutcome.ok → ReachableNoConnect s →
      ReachableNoConnect (connect outcome s).2

/-- Every continuing loop iteration consumes at least one byte and never
more than the buffer holds. -/
theorem step_cont_bounds {buf : List Nat} {of : Option CANFrame} {k : Nat}
    (h : step buf = .cont of k) : 1 ≤ k ∧ k ≤ buf.length := by
  cases buf with
  | nil => simp [step] at h
  | cons b0 rest =>
    cases rest with
    | nil =>
      simp only [step] at h
      split at h
      · simp only [StepResult.cont.injEq] at h
        obtain ⟨-, rfl⟩ := h
        simp
      · exact absurd h (by simp)
    | cons b1 tl =>
      simp only [step] at h
      split at h
      · simp only [StepResult.cont.injEq] at h
        obtain ⟨-, rfl⟩ := h
        simp
      · split at h
        · split at h
          · simp only [StepResult.cont.injEq] at h
            obtain ⟨-, rfl⟩ := h
            simp_all
          · exact absurd h (by simp)
        · split at h
          · split at h
            · split at h <;>
                (simp only [StepResult.cont.injEq] at h
                 obtain ⟨-, rfl⟩ := h
                 simp only [List.length_cons] at *
                 omega)
            · exact absurd h (by simp)
          · simp only [StepResult.cont.injEq] at h
            obtain ⟨-, rfl⟩ := h
            simp

/-- The driver's result does not depend on the fuel once the fuel covers
the buffer length: the loop terminates within one iteration per byte. -/
theorem processBufferAux_irrel (f1 : Nat) :
    ∀ (buf : List Nat) (f2 : Nat), buf.length ≤ f1 → buf.length ≤ f2 →
      processBufferAux f1 buf = processBufferAux f2 buf := by
  induction f1 with
  | zero =>
    intro buf f2 h1 _
    obtain rfl : buf = [] := List.eq_nil_of_length_eq_zero (Nat.le_zero.mp h1)
    cases f2 <;> simp [processBufferAux, step]
  | succ f ih =>
    intro buf f2 h1 h2
    cases buf with
    | nil => cases f2 <;> simp [processBufferAux, step]
    | cons b0 rest =>
      cases f2 with
      | zero => simp at h2
      | succ f2' =>
        cases hs : step (b0 :: rest) with
        | stop => simp only [processBufferAux, hs]
        | cont of k =>
          obtain ⟨hk1, hk2⟩ := step_cont_bounds hs
          have hd1 : ((b0 :: rest).drop k).length ≤ f := by
            simp only [List.length_drop, List.length_cons] at *
            omega
          have hd2 : ((b0 :: rest).drop k).length ≤ f2' := by
            simp only [List.length_drop, List.length_cons] at *
            omega
          simp only [processBufferAux, hs]
          rw [ih _ f2' hd1 hd2]

/-- Unfolding `processBuffer` when the loop exits immediately. -/
theorem processBuffer_stop {buf : List Nat} (h : step buf = .stop) :
    processBuffer buf = ([], buf) := by
  cases buf with
  | nil => rfl
  | cons b0 rest =>
    unfold processBuffer
    simp only [List.length_cons, processBufferAux, h]

/-- Unfolding `processBuffer` when the loop consumes `k` bytes: the rest
of the pass is a pass over the shortened buffer. -/
theorem processBuffer_cont {buf : List Nat} {of : Option CANFrame} {k : Nat}
    (h : step buf = .cont of k) :
    processBuffer buf =
      (consOpt of (processBuffer (buf.drop k)).1,
       (processBuffer (buf.drop k)).2) := by
  obtain ⟨hk1, hk2⟩ := step_cont_bounds h
  cases buf with
  | nil => simp [step] at h
  | cons b0 rest =>
    have hirr : processBufferAux rest.length ((b0 :: rest).drop k) =
        processBuffer ((b0 :: rest).drop k) := by
      apply processBufferAux_irrel
      · simp only [List.length_drop, List.length_cons] at *
        omega
      · exact Nat.le_refl _
    unfold processBuffer
    simp only [List.length_cons, processBufferAux, h, hirr]
    rfl

/-- A data-frame type byte (high nibble `0xC`) is never the command
marker `0x55`. -/
theorem type_byte_ne_0x55 {t : Nat} (ht : t >>> 4 = 0x0C) : t ≠ 0x55 := by
  rw [Nat.shiftRight_eq_div_pow] at ht
  norm_num at ht
  omega

/-- On a buffer headed by a complete well-formed data frame of declared
length `L = t &&& 0x0F`, one loop iteration emits exactly the decoded
frame and consumes `L + 5` bytes. -/
theorem step_wf_frame (t lo hi : Nat) (payload tail : List Nat)
    (ht : t >>> 4 = 0x0C) (hlen : payload.length = t &&& 0x0F) :
    step ((0xAA :: t :: lo :: hi :: (payload ++ [0x55])) ++ tail) =
      .cont (some (decodeFrame (0xAA :: t :: lo :: hi :: (payload ++ [0x55]))))
        ((t &&& 0x0F) + 5) := by
  have hne : t ≠ 0x55 := type_byte_ne_0x55 ht
  have hfrontlen : (0xAA :: t :: lo :: hi :: (payload ++ [0x55])).length
      = (t &&& 0x0F) + 5 := by
    simp only [List.length_cons, List.length_append, List.length_nil]
    omega
  have htake : ((0xAA :: t :: lo :: hi :: (payload ++ [0x55])) ++ tail).take
      ((t &&& 0x0F) + 5) = 0xAA :: t :: lo :: hi :: (payload ++ [0x55]) :=
    List.take_left' hfrontlen
  simp only [List.cons_append] at htake
  have hlast : (0xAA :: t :: lo :: hi :: (payload ++ [0x55])).getLast?
      = some 0x55 := by
    have h2 : (0xAA : Nat) :: t :: lo :: hi :: (payload ++ [0x55])
        = ((0xAA : Nat) :: t :: lo :: hi :: payload) ++ [0x55] := by simp
    rw [h2, List.getLast?_concat]
  simp only [List.cons_append, step, htake, hlast, List.length_cons,
    List.length_append, List.length_nil]
  split_ifs with h1 h2 <;> first
    | rfl
    | (exfalso; omega)

/-- Field values of the frame decoded from a well-formed data-frame
span. -/
theorem decodeFrame_wf (t lo hi : Nat) (payload : List Nat)
    (hlen : payload.length = t &&& 0x0F) :
    decodeFrame (0xAA :: t :: lo :: hi :: (payload ++ [0x55])) =
      { id := lo ||| (hi <<< 8), dlc := t &&& 0x0F,
        data := payload, is_extended := t &&& 0x20 != 0 } := by
  have hdata : (payload ++ [0x55]).take (t &&& 0x0F) = payload := by
    rw [← hlen]
    exact List.take_left payload [0x55]
  have h1 : (0xAA :: t :: lo :: hi :: (payload ++ [0x55])).getD 1 0 = t := rfl
  have h2 : (0xAA :: t :: lo :: hi :: (payload ++ [0x55])).getD 2 0 = lo := rfl
  have h3 : (0xAA :: t :: lo :: hi :: (payload ++ [0x55])).getD 3 0 = hi := rfl
  have h4 : (0xAA :: t :: lo :: hi :: (payload ++ [0x55])).drop 4
      = payload ++ [0x55] := rfl
  simp only [decodeFrame, h1, h2, h3, h4, hdata]

/-- A full decode pass over a buffer headed by a complete well-formed
data frame emits that frame first, drops exactly its `L + 5` bytes, and
continues as a pass over the remainder. -/
theorem processBuffer_wf_frame (t lo hi : Nat) (payload tail : List Nat)
    (ht : t >>> 4 = 0x0C) (hlen : payload.length = t &&& 0x0F) :
    processBuffer ((0xAA :: t :: lo :: hi :: (payload ++ [0x55])) ++ tail) =
      (decodeFrame (0xAA :: t :: lo :: hi :: (payload ++ [0x55]))
         :: (processBuffer tail).1,
       (processBuffer tail).2) := by
  have hs := step_wf_frame t lo hi payload tail ht hlen
  have hdrop : ((0xAA :: t :: lo :: hi :: (payload ++ [0x55])) ++ tail).drop
      ((t &&& 0x0F) + 5) = tail := by
    apply List.drop_left'
    simp only [List.length_cons, List.length_append, List.length_nil]
    omega
  rw [processBuffer_cont hs, hdrop]
  rfl

/-- On a strict prefix of a well-formed data frame the loop exits at
once: either the buffer is shorter than two bytes or the declared frame
length exceeds the bytes available. -/
theorem step_wf_incomplete (t lo hi : Nat) (payload : List Nat) (k : Nat)
    (ht : t >>> 4 = 0x0C) (hlen : payload.length = t &&& 0x0F)
    (hk : k < (0xAA :: t :: lo :: hi :: (payload ++ [0x55])).length) :
    step ((0xAA :: t :: lo :: hi :: (payload ++ [0x55])).take k) = .stop := by
  have hne : t ≠ 0x55 := type_byte_ne_0x55 ht
  simp only [List.length_cons, List.length_append, List.length_nil] at hk
  match k with
  | 0 => rfl
  | 1 => rfl
  | (n+2) =>
    simp only [List.take_succ_cons, step, List.length_cons, List.length_take,
      List.length_append, List.length_nil]
    split_ifs with h1 h2 h3 <;> first
      | rfl
      | (exfalso; omega)

/-- A decode pass over a strict prefix of a well-formed data frame emits
nothing and retains every byte. -/
theorem processBuffer_wf_incomplete (t lo hi : Nat) (payload : List Nat)
    (k : Nat) (ht : t >>> 4 = 0x0C) (hlen : payload.length = t &&& 0x0F)
    (hk : k < (0xAA :: t :: lo :: hi :: (payload ++ [0x55])).length) :
    processBuffer ((0xAA :: t :: lo :: hi :: (payload ++ [0x55])).take k) =
      ([], (0xAA :: t :: lo :: hi :: (payload ++ [0x55])).take k) :=
  processBuffer_stop (step_wf_incomplete t lo hi payload k ht hlen hk)

/-- A buffer containing no `0xAA` byte is consumed entirely, one
resynchronization discard per byte, and no frame is emitted. -/
theorem processBuffer_no_syncByte :
    ∀ buf : List Nat, 0xAA ∉ buf → processBuffer buf = ([], []) := by
  intro buf
  induction buf with
  | nil => intro _; rfl
  | cons b rest ih =>
    intro hmem
    have hb : b ≠ 0xAA := fun h => hmem (h ▸ List.mem_cons_self b rest)
    have hs : step (b :: rest) = .cont none 1 := by
      simp only [step]
      rw [if_pos hb]
    rw [processBuffer_cont hs]
    have hdrop : (b :: rest).drop 1 = rest := rfl
    rw [hdrop, ih (fun h => hmem (List.mem_cons_of_mem b h))]
    rfl

/-- A command/response header (`0xAA 0x55`) with fewer than 20 bytes in
the buffer makes the loop exit, retaining everything. -/
theorem step_cmd_truncated (rest : List Nat) (h : rest.length + 2 < 20) :
    step (0xAA :: 0x55 :: rest) = .stop := by
  simp only [step, List.length_cons]
  split_ifs with h1 h2 <;> first
    | rfl
    | (exfalso; omega)

/-- A data-frame header whose declared span exceeds the bytes available
makes the loop exit, retaining everything. -/
theorem step_data_truncated (t : Nat) (rest : List Nat)
    (ht : t >>> 4 = 0x0C) (h : rest.length + 2 < (t &&& 0x0F) + 5) :
    step (0xAA :: t :: rest) = .stop := by
  have hne : t ≠ 0x55 := type_byte_ne_0x55 ht
  simp only [step, List.length_cons]
  split_ifs with h1 h2 <;> first
    | rfl
    | (exfalso; omega)

/-- A complete data-frame span whose terminator byte is not `0x55` is
discarded whole — `L + 5` bytes consumed — without emitting a frame. -/
theorem step_bad_terminator (t : Nat) (rest : List Nat)
    (ht : t >>> 4 = 0x0C)
    (hlen : (t &&& 0x0F) + 5 ≤ rest.length + 2)
    (hbad : (0xAA :: t :: rest).getD ((t &&& 0x0F) + 4) 0 ≠ 0x55) :
    step (0xAA :: t :: rest) = .cont none ((t &&& 0x0F) + 5) := by
  have hne : t ≠ 0x55 := type_byte_ne_0x55 ht
  have hfl : ((0xAA :: t :: rest).take ((t &&& 0x0F) + 5)).length
      = (t &&& 0x0F) + 5 := by
    simp only [List.length_take, List.length_cons]
    omega
  have hlast : ((0xAA :: t :: rest).take ((t &&& 0x0F) + 5)).getLast?
      ≠ some 0x55 := by
    rw [List.getLast?_eq_getElem?, hfl]
    have h45 : (t &&& 0x0F) + 5 - 1 = (t &&& 0x0F) + 4 := by omega
    rw [h45, List.getElem?_take_of_lt (by omega)]
    intro hcontra
    apply hbad
    rw [List.getD_eq_getElem?_getD, hcontra]
    rfl
  simp only [step, List.length_cons]
  split_ifs with h1 <;> first
    | rfl
    | (exfalso; omega)

/-- Inversion for frame emission: whenever a loop iteration emits a
frame, the buffer head was `0xAA` and exactly `dlc + 5` bytes were
consumed for it. -/
theorem step_emit_inv {buf : List Nat} {f : CANFrame} {k : Nat}
    (h : step buf = .cont (some f) k) :
    buf.head? = some 0xAA ∧ k = f.dlc + 5 := by
  cases buf with
  | nil => simp [step] at h
  | cons b0 rest =>
    cases rest with
    | nil =>
      simp only [step] at h
      split at h <;> simp_all
    | cons b1 tl =>
      simp only [step] at h
      split at h
      · simp_all
      · split at h
        · split at h <;> simp_all
        · split at h
          · split at h
            · split at h
              · simp only [StepResult.cont.injEq, Option.some.injEq] at h
                obtain ⟨rfl, rfl⟩ := h
                refine ⟨?_, ?_⟩
                · simp_all [List.head?]
                · have hdlc : (decodeFrame ((b0 :: b1 :: tl).take
                      ((b1 &&& 0x0F) + 5))).dlc = b1 &&& 0x0F := by
                    simp only [decodeFrame]
                    rfl
                  rw [hdlc]
              · simp_all
            · simp_all
          · simp_all

/-- Iteration-count fuel irrelevance: once the fuel covers the buffer
length, the loop iteration count depends on the buffer alone. -/
theorem passIters_irrel (f1 : Nat) :
    ∀ (buf : List Nat) (f2 : Nat), buf.length ≤ f1 → buf.length ≤ f2 →
      passIters f1 buf = passIters f2 buf := by
  induction f1 with
  | zero =>
    intro buf f2 h1 _
    obtain rfl : buf = [] := List.eq_nil_of_length_eq_zero (Nat.le_zero.mp h1)
    cases f2 <;> rfl
  | succ f ih =>
    intro buf f2 h1 h2
    cases buf with
    | nil => cases f2 <;> rfl
    | cons b0 rest =>
      cases f2 with
      | zero => simp at h2
      | succ f2' =>
        cases hs : step (b0 :: rest) with
        | stop => simp only [passIters, hs]
        | cont of k =>
          obtain ⟨hk1, hk2⟩ := step_cont_bounds hs
          have hd1 : ((b0 :: rest).drop k).length ≤ f := by
            simp only [List.length_drop, List.length_cons] at *
            omega
          have hd2 : ((b0 :: rest).drop k).length ≤ f2' := by
            simp only [List.length_drop, List.length_cons] at *
            omega
          simp only [passIters, hs]
          rw [ih _ f2' hd1 hd2]

/-- The loop executes at most one iteration per initial buffer byte plus
one final exiting iteration, because every continuing iteration removes
at least one byte. -/
theorem passIters_le (fuel : Nat) :
    ∀ buf : List Nat, passIters fuel buf ≤ buf.length + 1 := by
  induction fuel with
  | zero => intro buf; simp [passIters]
  | succ f ih =>
    intro buf
    cases buf with
    | nil => simp [passIters]
    | cons b0 rest =>
      cases hs : step (b0 :: rest) with
      | stop =>
        simp only [passIters, hs, List.length_cons]
        omega
      | cont of k =>
        obtain ⟨hk1, hk2⟩ := step_cont_bounds hs
        simp only [passIters, hs]
        have hrec := ih ((b0 :: rest).drop k)
        simp only [List.length_drop, List.length_cons] at *
        omega

/-- The identifier computation `lo ||| (hi <<< 8)` used by the decoder
is the little-endian 16-bit combination `lo + 256 * hi` whenever `lo` is
a byte. -/
theorem lor_shiftLeft_eq_add {lo hi : Nat} (h : lo < 256) :
    lo ||| (hi <<< 8) = lo + 256 * hi := by
  have h1 : hi <<< 8 = 2 ^ 8 * hi := by
    rw [Nat.shiftLeft_eq]
    ring
  have h2 : 2 ^ 8 * hi + lo = 2 ^ 8 * hi ||| lo :=
    Nat.mul_add_lt_is_or (by simpa using h) hi
  rw [h1, Nat.lor_comm, ← h2]
  ring

/-- Claim C1: a buffer headed by a well-formed data frame of declared
length `L = t &&& 0x0F` (start `0xAA`, type byte with high nibble `0xC`,
two identifier bytes, `L` payload bytes, terminator `0x55`) yields, in
one decode pass, exactly one frame for that span — length `L`, payload
the `L` bytes at offset 4, identifier the byte at offset 2 plus the byte
at offset 3 shifted left 8 — and the buffer advances by exactly `L + 5`
bytes before the pass continues on the remainder. -/
theorem frame_decode_correct (t lo hi : Nat) (payload tail : List Nat)
    (ht : t >>> 4 = 0x0C) (hlen : payload.length = t &&& 0x0F)
    (hlo : lo < 256) :
    step ((0xAA :: t :: lo :: hi :: (payload ++ [0x55])) ++ tail) =
      .cont (some (decodeFrame (0xAA :: t :: lo :: hi :: (payload ++ [0x55]))))
        ((t &&& 0x0F) + 5) ∧
    processBuffer ((0xAA :: t :: lo :: hi :: (payload ++ [0x55])) ++ tail) =
      (decodeFrame (0xAA :: t :: lo :: hi :: (payload ++ [0x55]))
         :: (processBuffer tail).1,
       (processBuffer tail).2) ∧
    decodeFrame (0xAA :: t :: lo :: hi :: (payload ++ [0x55])) =
      { id := lo + 256 * hi, dlc := t &&& 0x0F, data := payload,
        is_extended := t &&& 0x20 != 0 } ∧
    ((0xAA :: t :: lo :: hi :: (payload ++ [0x55])) ++ tail).drop
        ((t &&& 0x0F) + 5) = tail := by
  refine ⟨step_wf_frame t lo hi payload tail ht hlen,
          processBuffer_wf_frame t lo hi payload tail ht hlen, ?_, ?_⟩
  · rw [decodeFrame_wf t lo hi payload hlen, lor_shiftLeft_eq_add hlo]
  · apply List.drop_left'
    simp only [List.length_cons, List.length_append, List.length_nil]
    omega

theorem frame_decode_correct_witness :
    processBuffer ((0xAA :: 0xC2 :: 0x23 :: 0x01 :: ([7, 9] ++ [0x55]))
        ++ [0xAB]) =
      (decodeFrame (0xAA :: 0xC2 :: 0x23 :: 0x01 :: ([7, 9] ++ [0x55]))
         :: (processBuffer [0xAB]).1, (processBuffer [0xAB]).2) ∧
    decodeFrame (0xAA :: 0xC2 :: 0x23 :: 0x01 :: ([7, 9] ++ [0x55])) =
      { id := 0x23 + 256 * 0x01, dlc := 2, data := [7, 9],
        is_extended := false } := by
  have h := frame_decode_correct 0xC2 0x23 0x01 [7, 9] [0xAB]
    (by decide) (by decide) (by decide)
  refine ⟨h.2.1, ?_⟩
  rw [h.2.2.1]
  decide

/-- Claim C2: a data-frame span (`0xAA`, type byte with high nibble
`0xC`) with `length + 5` bytes available but the wrong byte at the
terminator offset emits no frame yet still discards exactly
`length + 5` bytes; and every frame an iteration does emit came from a
span whose leading byte was `0xAA` and consumed exactly `dlc + 5`
bytes. -/
theorem dataSpan_discard_and_emit_inv :
    (∀ (t : Nat) (rest : List Nat),
        t >>> 4 = 0x0C →
        (t &&& 0x0F) + 5 ≤ rest.length + 2 →
        (0xAA :: t :: rest).getD ((t &&& 0x0F) + 4) 0 ≠ 0x55 →
        step (0xAA :: t :: rest) = .cont none ((t &&& 0x0F) + 5) ∧
        processBuffer (0xAA :: t :: rest) =
          processBuffer ((0xAA :: t :: rest).drop ((t &&& 0x0F) + 5))) ∧
    (∀ (buf : List Nat) (f : CANFrame) (k : Nat),
        step buf = .cont (some f) k →
        buf.head? = some 0xAA ∧ k = f.dlc + 5) := by
  constructor
  · intro t rest ht hlen hbad
    have hs := step_bad_terminator t rest ht hlen hbad
    refine ⟨hs, ?_⟩
    rw [processBuffer_cont hs]
    rfl
  · exact fun _ _ _ h => step_emit_inv h

theorem dataSpan_discard_and_emit_inv_witness :
    (step [0xAA, 0xC0, 9, 9, 0x56] = .cont none 5 ∧
     processBuffer [0xAA, 0xC0, 9, 9, 0x56] =
       processBuffer ([0xAA, 0xC0, 9, 9, 0x56].drop 5)) ∧
    ([0xAA, 0xC1, 1, 2, 3, 0x55].head? = some 0xAA ∧
     6 = ({ id := 0x0201, dlc := 1, data := [3],
            is_extended := false } : CANFrame).dlc + 5) :=
  ⟨dataSpan_discard_and_emit_inv.1 0xC0 [9, 9, 0x56]
     (by decide) (by decide) (by decide),
   dataSpan_discard_and_emit_inv.2 [0xAA, 0xC1, 1, 2, 3, 0x55]
     { id := 0x0201, dlc := 1, data := [3], is_extended := false } 6
     (by decide)⟩

/-- Claim C3: a byte sequence containing no `0xAA` is consumed entirely
— one resynchronization discard per iteration — and the pass emits no
frames, leaving the buffer empty. -/
theorem noise_consumed :
    (∀ (b : Nat) (rest : List Nat), b ≠ 0xAA →
        step (b :: rest) = .cont none 1) ∧
    (∀ buf : List Nat, 0xAA ∉ buf → processBuffer buf = ([], [])) := by
  constructor
  · intro b rest hb
    simp only [step]
    rw [if_pos hb]
  · exact processBuffer_no_syncByte

theorem noise_consumed_witness :
    step [7, 8] = .cont none 1 ∧
    processBuffer [1, 2, 3, 0x55, 0xC8] = ([], []) :=
  ⟨noise_consumed.1 7 [8] (by decide),
   noise_consumed.2 [1, 2, 3, 0x55, 0xC8] (by decide)⟩

/-- Claim C4: splitting a complete well-formed data frame into two
consecutive chunks at any position `k` and running a decode pass after
each append yields the same single decoded frame and the same (empty)
final buffer as decoding the whole frame at once. -/
theorem split_feed_equiv (t lo hi : Nat) (payload : List Nat) (k : Nat)
    (ht : t >>> 4 = 0x0C) (hlen : payload.length = t &&& 0x0F) :
    ∀ fr, fr = 0xAA :: t :: lo :: hi :: (payload ++ [0x55]) →
      processBuffer fr = ([decodeFrame fr], []) ∧
      (processBuffer (fr.take k)).1 ++
        (processBuffer ((processBuffer (fr.take k)).2 ++ fr.drop k)).1 =
        [decodeFrame fr] ∧
      (processBuffer ((processBuffer (fr.take k)).2 ++ fr.drop k)).2 = [] := by
  intro fr hfr
  subst hfr
  have hfull : processBuffer (0xAA :: t :: lo :: hi :: (payload ++ [0x55])) =
      ([decodeFrame (0xAA :: t :: lo :: hi :: (payload ++ [0x55]))], []) := by
    have h := processBuffer_wf_frame t lo hi payload [] ht hlen
    simp only [List.append_nil] at h
    exact h
  refine ⟨hfull, ?_⟩
  rcases Nat.lt_or_ge k
      (0xAA :: t :: lo :: hi :: (payload ++ [0x55])).length with hk | hk
  · have hpre := processBuffer_wf_incomplete t lo hi payload k ht hlen hk
    rw [hpre]
    show [] ++ (processBuffer (List.take k _ ++ List.drop k _)).1 = _ ∧ _
    rw [List.take_append_drop, hfull]
    exact ⟨rfl, rfl⟩
  · have htk := List.take_of_length_le hk
    have hdr := List.drop_eq_nil_of_le hk
    rw [htk, hdr, hfull]
    exact ⟨rfl, rfl⟩

theorem split_feed_equiv_witness :
    processBuffer (0xAA :: 0xC1 :: 4 :: 0 :: ([9] ++ [0x55])) =
      ([decodeFrame (0xAA :: 0xC1 :: 4 :: 0 :: ([9] ++ [0x55]))], []) ∧
    (processBuffer ((0xAA :: 0xC1 :: 4 :: 0 :: ([9] ++ [0x55])).take 3)).1 ++
      (processBuffer
        ((processBuffer
            ((0xAA :: 0xC1 :: 4 :: 0 :: ([9] ++ [0x55])).take 3)).2 ++
          (0xAA :: 0xC1 :: 4 :: 0 :: ([9] ++ [0x55])).drop 3)).1 =
      [decodeFrame (0xAA :: 0xC1 :: 4 :: 0 :: ([9] ++ [0x55]))] ∧
    (processBuffer
        ((processBuffer
            ((0xAA :: 0xC1 :: 4 :: 0 :: ([9] ++ [0x55])).take 3)).2 ++
          (0xAA :: 0xC1 :: 4 :: 0 :: ([9] ++ [0x55])).drop 3)).2 = [] :=
  split_feed_equiv 0xC1 4 0 [9] 3 (by decide) (by decide) _ rfl

/-- Claim C5: truncated frames are retained whole and emit nothing: a
lone `0xAA`, a data-frame header with fewer than `length + 5` bytes
present, and a command header `0xAA 0x55` with fewer than 20 bytes
present all leave the buffer unchanged. -/
theorem truncated_frame_retained :
    processBuffer [0xAA] = ([], [0xAA]) ∧
    (∀ (t : Nat) (rest : List Nat), t >>> 4 = 0x0C →
        rest.length + 2 < (t &&& 0x0F) + 5 →
        processBuffer (0xAA :: t :: rest) = ([], 0xAA :: t :: rest)) ∧
    (∀ rest : List Nat, rest.length + 2 < 20 →
        processBuffer (0xAA :: 0x55 :: rest) = ([], 0xAA :: 0x55 :: rest)) :=
  ⟨rfl,
   fun t rest ht h => processBuffer_stop (step_data_truncated t rest ht h),
   fun rest h => processBuffer_stop (step_cmd_truncated rest h)⟩

theorem truncated_frame_retained_witness :
    processBuffer [0xAA, 0xC8, 1, 2] = ([], [0xAA, 0xC8, 1, 2]) ∧
    processBuffer [0xAA, 0x55, 7] = ([], [0xAA, 0x55, 7]) :=
  ⟨truncated_frame_retained.2.1 0xC8 [1, 2] (by decide) (by decide),
   truncated_frame_retained.2.2 [7] (by decide)⟩

/-- Claim C10: a decode pass over any finite buffer terminates — every
continuing loop iteration removes at least one byte (and never more
than remain), fuel equal to the buffer length already computes the
fixed point of the pass, and the loop runs at most one iteration per
initial buffer byte plus one. -/
theorem decode_pass_terminates :
    (∀ (buf : List Nat) (of : Option CANFrame) (k : Nat),
        step buf = .cont of k → 1 ≤ k ∧ k ≤ buf.length) ∧
    (∀ (fuel : Nat) (buf : List Nat), buf.length ≤ fuel →
        processBufferAux fuel buf = processBuffer buf ∧
        passIters fuel buf = passIters buf.length buf) ∧
    (∀ (fuel : Nat) (buf : List Nat), passIters fuel buf ≤ buf.length + 1) :=
  ⟨fun _ _ _ h => step_cont_bounds h,
   fun fuel buf h =>
     ⟨processBufferAux_irrel fuel buf buf.length h (Nat.le_refl _),
      passIters_irrel fuel buf buf.length h (Nat.le_refl _)⟩,
   fun fuel buf => passIters_le fuel buf⟩

theorem decode_pass_terminates_witness :
    (1 ≤ 1 ∧ 1 ≤ 1) ∧
    (processBufferAux 9 [1, 2] = processBuffer [1, 2] ∧
     passIters 9 [1, 2] = passIters 2 [1, 2]) ∧
    passIters 3 [0xAA] ≤ 2 :=
  ⟨decode_pass_terminates.1 [7] none 1 (by decide),
   decode_pass_terminates.2.1 9 [1, 2] (by decide),
   decode_pass_terminates.2.2 3 [0xAA]⟩

/-- Claim C6 (code behaviour at the spec's two scenarios): the bytes
`AA C8 23 01 01..08 55` decode to one standard frame with identifier
`0x123`, length 8, payload `[1..8]`, `is_extended = false`; but the same
bytes with type byte `0xE8` (bit `0x20` set) emit no frame at all — the
guard `(buffer[1] >> 4) == 0x0C` rejects the high nibble `0xE`, so the
whole input is discarded byte-by-byte as noise. -/
theorem extended_frame_scenarios :
    processBuffer [0xAA, 0xC8, 0x23, 0x01, 1, 2, 3, 4, 5, 6, 7, 8, 0x55] =
      ([{ id := 0x123, dlc := 8, data := [1, 2, 3, 4, 5, 6, 7, 8],
          is_extended := false }], []) ∧
    processBuffer [0xAA, 0xE8, 0x23, 0x01, 1, 2, 3, 4, 5, 6, 7, 8, 0x55] =
      ([], []) := by
  decide

/-- No frame the decoder can ever emit has `is_extended = true`: any
type byte accepted by the data-frame guard has high nibble exactly
`0xC`, whose bit `0x20` is clear. -/
theorem emitted_frames_never_extended {buf : List Nat} {f : CANFrame}
    {k : Nat} (h : step buf = .cont (some f) k) : f.is_extended = false := by
  cases buf with
  | nil => simp [step] at h
  | cons b0 rest =>
    cases rest with
    | nil =>
      simp only [step] at h
      split at h <;> simp_all
    | cons b1 tl =>
      simp only [step] at h
      split at h
      · simp_all
      · split at h
        · split at h <;> simp_all
        · split at h
          · split at h
            · split at h
              · simp only [StepResult.cont.injEq, Option.some.injEq] at h
                obtain ⟨rfl, -⟩ := h
                have hb : 192 ≤ b1 ∧ b1 ≤ 207 := by
                  rename_i hnib _ _
                  rw [Nat.shiftRight_eq_div_pow] at hnib
                  norm_num at hnib
                  omega
                have h1 : ((b0 :: b1 :: tl).take ((b1 &&& 0x0F) + 5)).getD 1 0
                    = b1 := rfl
                simp only [decodeFrame, h1]
                obtain ⟨hl, hr⟩ := hb
                interval_cases b1 <;> decide
              · simp_all
            · simp_all
          · simp_all

theorem emitted_frames_never_extended_witness :
    ({ id := 0x123, dlc := 8, data := [1, 2, 3, 4, 5, 6, 7, 8],
       is_extended := false } : CANFrame).is_extended = false :=
  emitted_frames_never_extended
    (by decide :
      step [0xAA, 0xC8, 0x23, 0x01, 1, 2, 3, 4, 5, 6, 7, 8, 0x55] =
        StepResult.cont
          (some { id := 0x123, dlc := 8, data := [1, 2, 3, 4, 5, 6, 7, 8],
                  is_extended := false }) 13)

/-- Claim C7: the encoded initialization command is exactly 20 bytes —
`0xAA 0x55 0x12`, the speed code, `0x01`, nine `0x00`, one `0x01`, four
`0x00`, then a checksum equal to the sum of bytes 2 through 18
truncated to 8 bits — and any speed absent from the speed map gets the
same code byte as 500000. -/
theorem initCommand_correct (s : Nat) :
    (initCommand s).length = 20 ∧
    initCommand s =
      [0xAA, 0x55, 0x12, speedCode s, 0x01, 0, 0, 0, 0, 0, 0, 0, 0, 0,
       0x01, 0, 0, 0, 0,
       (((initCommand s).drop 2).take 17).sum &&& 0xFF] ∧
    (speed_map.lookup s = none → speedCode s = speedCode 500000) := by
  refine ⟨rfl, rfl, ?_⟩
  intro h
  unfold speedCode
  rw [h]
  decide

theorem initCommand_correct_witness :
    (initCommand 777).length = 20 ∧ speedCode 777 = speedCode 500000 :=
  ⟨(initCommand_correct 777).1, (initCommand_correct 777).2.2 (by decide)⟩

/-- Claim C8: when opening the transport fails, `connect` returns the
failure value `false` (the model is total, so no exception escapes),
leaves the state untouched — in particular, from the fresh state the
`running` flag stays `false` and no thread exists — and retains nothing
from the failed attempt. -/
theorem connect_openFail_clean (s : SessionState) :
    connect ConnectOutcome.openFail s = (false, s) ∧
    (connect ConnectOutcome.openFail initState).2.running = false ∧
    (connect ConnectOutcome.openFail initState).2.read_thread = none ∧
    (connect ConnectOutcome.openFail initState).2 = initState :=
  ⟨rfl, rfl, rfl, rfl⟩

/-- In every session state reachable without a successful `connect`, no
thread object was ever created. -/
theorem reachable_no_thread {s : SessionState} (h : ReachableNoConnect s) :
    s.read_thread = none := by
  induction h with
  | init => rfl
  | connectFail outcome s' hne _ ih =>
    cases outcome with
    | openFail => exact ih
    | writeFail => exact ih
    | ok => exact absurd rfl hne

/-- Claim C9: `disconnect` completes without raising in every session
state reachable without a successful `connect` — the thread join is
skipped (no thread exists) and closing the port, when one was assigned
by a half-failed attempt, is harmless; only the `running` flag is
cleared. -/
theorem disconnect_safe_without_connect (s : SessionState)
    (h : ReachableNoConnect s) :
    disconnect s = .ok { s with running := false } := by
  have hth : s.read_thread = none := reachable_no_thread h
  obtain ⟨ser, running, rt, buffer⟩ := s
  subst hth
  cases ser <;> rfl

theorem disconnect_safe_without_connect_witness :
    disconnect initState = .ok { initState with running := false } :=
  disconnect_safe_without_connect initState ReachableNoConnect.init

theorem connect_openFail_clean_witness :
    connect ConnectOutcome.openFail initState = (false, initState) :=
  (connect_openFail_clean initState).1
